import Mathlib

/-!
Verification of `src/oscar/models/fields/decimal.py`: the custom model fields
`InternalIdentifierField`, `FormattedDecimalField`, `MoneyValueField`,
`QuantityField`, the form field `FormattedDecimalFormField`, and the
`IdentifierValidator` constant.

Python `decimal.Decimal` finite values are modelled by their `as_tuple`
representation: a sign flag, the coefficient (the digit tuple read as a natural
number; the `Decimal` constructor canonicalizes leading zeros away), and an
integer exponent.  `Decimal.normalize()` is the context `reduce` operation of
the default context (precision 28, rounding mode `ROUND_HALF_EVEN`,
`Emax = 999999`, `Emin = -999999`, `clamp = 0`): the `_fix` step rounds the
coefficient to the context precision - at the subnormal exponent `Etiny` for
values below `Emin` - and signals `Overflow`, which the default context traps
into an exception, when the rounded value's adjusted exponent exceeds `Emax`;
then trailing zeros are stripped and a zero result is canonicalized to
exponent 0 while keeping its sign.  Special values (NaN, infinities) are out
of scope.  Recursions are written with an explicit fuel argument so that every
definition evaluates by kernel reduction.
-/

namespace OscarFields

/-- Decimal: a finite Python `decimal.Decimal` as exposed by `as_tuple()`:
`sign` is true for negative (including negative zero), `coeff` is the digit
tuple read as a natural number, `exp` the exponent. -/
structure Decimal where
  sign : Bool
  coeff : Nat
  exp : Int
deriving DecidableEq, Repr

/-- digitsAux fuel c: base-10 digits of `c`, least significant first, with an
explicit fuel bound (any fuel with `c < 10 ^ fuel` yields the digits). -/
def digitsAux : Nat → Nat → List Nat
  | 0, _ => []
  | fuel + 1, c => if c = 0 then [] else c % 10 :: digitsAux fuel (c / 10)

/-- natDigits c: base-10 digits of `c`, least significant first (`[]` for 0). -/
def natDigits (c : Nat) : List Nat := digitsAux c c

/-- coeffDigits c: the digit tuple of a coefficient exactly as in
`Decimal.as_tuple()`: most significant digit first, and the zero coefficient
is the single digit `(0,)`. -/
def coeffDigits (c : Nat) : List Nat := if c = 0 then [0] else (natDigits c).reverse

/-- numDigits c: `len(digits)` of the `as_tuple` digit tuple of coefficient `c`. -/
def numDigits (c : Nat) : Nat := (coeffDigits c).length

/-- stripAux: the trailing-zero stripping loop of the decimal `reduce`
operation (`while coefficient divisible by 10: divide it by 10 and raise the
exponent`), with explicit fuel. -/
def stripAux : Nat → Nat → Int → Nat × Int
  | 0, c, e => (c, e)
  | fuel + 1, c, e => if c % 10 = 0 ∧ c ≠ 0 then stripAux fuel (c / 10) (e + 1) else (c, e)

/-- stripZeros c e: strip all trailing zeros from coefficient `c`, raising the
exponent accordingly. -/
def stripZeros (c : Nat) (e : Int) : Nat × Int := stripAux c c e

/-- roundHalfEvenDiv c k: `c / 10^k` rounded to the nearest integer with ties
to even - the coefficient rounding the default decimal context (rounding mode
`ROUND_HALF_EVEN`) performs when a result must be shortened by `k` digits. -/
def roundHalfEvenDiv (c k : Nat) : Nat :=
  if 2 * (c % 10 ^ k) > 10 ^ k then c / 10 ^ k + 1
  else if 2 * (c % 10 ^ k) = 10 ^ k then
    (if (c / 10 ^ k) % 2 = 1 then c / 10 ^ k + 1 else c / 10 ^ k)
  else c / 10 ^ k

/-- prec: the precision of the default decimal context. -/
def prec : Nat := 28

/-- Emax: the largest adjusted exponent the default decimal context allows. -/
def Emax : Int := 999999

/-- Emin: the smallest adjusted exponent before values go subnormal. -/
def Emin : Int := -999999

/-- Etiny: `Emin - prec + 1`, the exponent at which subnormal values are
rounded (-1000026 in the default context). -/
def Etiny : Int := Emin - prec + 1

/-- Etop: `Emax - prec + 1`, the largest value `_fix`'s target exponent
`exp_min` may take (999972 in the default context). -/
def Etop : Int := Emax - prec + 1

/-- expMin c e: the target exponent `exp_min` of the `_fix` step for a
nonzero value with coefficient `c` and exponent `e`: `Etiny` when the value
is subnormal (adjusted exponent `len + e - 1` below `Emin`), otherwise
`len + e - prec`, the exponent that leaves exactly `prec` digits. -/
def expMin (c : Nat) (e : Int) : Int :=
  if e + numDigits c - 1 < Emin then Etiny else e + numDigits c - prec

/-- contextFix c e: the `_fix` step of the decimal library applied to a
nonzero finite value under the default context, following CPython: first the
overflow check (`len + e - prec > Etop`, i.e. adjusted exponent above `Emax`,
signals `Overflow`, returned here as `none` since the default context traps
it); then, when the exponent is below `expMin`, the coefficient is rounded
half-even at `expMin`, a carry that lengthens it beyond `prec` digits drops
the trailing zero and raises the exponent - re-checking `exp_min > Etop` -
and otherwise the value is returned unchanged. -/
def contextFix (c : Nat) (e : Int) : Option (Nat × Int) :=
  if e + numDigits c - prec > Etop then Option.none
  else if e < expMin c e then
    (if numDigits (roundHalfEvenDiv c (expMin c e - e).toNat) > prec then
      (if expMin c e + 1 > Etop then Option.none
       else some (roundHalfEvenDiv c (expMin c e - e).toNat / 10, expMin c e + 1))
     else some (roundHalfEvenDiv c (expMin c e - e).toNat, expMin c e))
  else some (c, e)

/-- reduceValue c e: `_fix` followed by the trailing-zero stripping of
`normalize`, for a nonzero input value; a value rounded away to zero yields
the canonical zero `(0, 0)`.  CPython's stripping loop is additionally
guarded by `exp < Emax`, but for values that passed the overflow check the
stripped exponent never exceeds the (invariant) adjusted exponent, which is
at most `Emax`, so the guard never stops the loop early and is not written
out here. -/
def reduceValue (c : Nat) (e : Int) : Option (Nat × Int) :=
  match contextFix c e with
  | Option.none => Option.none
  | some p => if p.1 = 0 then some (0, 0) else some (stripZeros p.1 p.2)

/-- normalize: `Decimal.normalize()` under the default context: zero inputs
and values rounded away to zero canonicalize to exponent 0 (the sign is kept,
so `Decimal('-0')` stays negative); other values are fixed and stripped by
`reduceValue`; `none` is the `decimal.Overflow` exception the default context
raises for adjusted exponents above `Emax`. -/
def normalize (d : Decimal) : Option Decimal :=
  if d.coeff = 0 then some ⟨d.sign, 0, 0⟩
  else
    match reduceValue d.coeff d.exp with
    | Option.none => Option.none
    | some p => some ⟨d.sign, p.1, p.2⟩

/-- formatChars: the characters produced by `format(value, 'f')`: an optional
minus sign, then the coefficient digits with the decimal point inserted
according to the exponent, zero-padding as needed.  A nonnegative exponent
appends that many zeros; a negative exponent of magnitude `m` either splits
the digit string before its last `m` digits or prefixes `0.` and leading
zeros. -/
def formatChars (d : Decimal) : List Char :=
  (if d.sign then ['-'] else []) ++
    (if 0 ≤ d.exp then
      (coeffDigits d.coeff).map Nat.digitChar ++ List.replicate d.exp.toNat '0'
    else if (-d.exp).toNat < (coeffDigits d.coeff).length then
      ((coeffDigits d.coeff).map Nat.digitChar).take ((coeffDigits d.coeff).length - (-d.exp).toNat)
        ++ '.' :: ((coeffDigits d.coeff).map Nat.digitChar).drop ((coeffDigits d.coeff).length - (-d.exp).toNat)
    else
      '0' :: '.' :: (List.replicate ((-d.exp).toNat - (coeffDigits d.coeff).length) '0'
        ++ (coeffDigits d.coeff).map Nat.digitChar))

/-- formatFixed: `format(value, 'f')` - fixed-point rendering, never scientific. -/
def formatFixed (d : Decimal) : String := String.mk (formatChars d)

/-- DecimalError: the errors that can escape
`FormattedDecimalField.format_decimal`: `overflow` is the decimal library's
own `decimal.Overflow`, raised (trapped by the default context) inside
`value.normalize()` before any of the module's checks; the other three are
the module's explicit `ValueError` raises (the `%r` payload of the message is
not modelled). -/
inductive DecimalError where
  | overflow
  | exponentTooLarge
  | exponentTooSmall
  | tooManyDigits
deriving DecidableEq, Repr

/-- format_decimal: `FormattedDecimalField.format_decimal`.  The value is
normalized - which may itself raise `decimal.Overflow` - then the `as_tuple`
exponent of the normalized value is checked against `exponent_limit` on both
sides, the length of its digit tuple against `max_digits`, and the surviving
value is rendered with `format(val, 'f')`. -/
def format_decimal (value : Decimal) (max_digits : Nat := 100) (exponent_limit : Int := 100) :
    Except DecimalError String :=
  match normalize value with
  | Option.none => .error .overflow
  | some val =>
      if val.exp > exponent_limit then .error .exponentTooLarge
      else if val.exp < -exponent_limit then .error .exponentTooSmall
      else if numDigits val.coeff > max_digits then .error .tooManyDigits
      else .ok (formatFixed val)

/-- ratValue d: the numeric value of a Decimal, as a rational. -/
def ratValue (d : Decimal) : ℚ :=
  (if d.sign then (-1 : ℚ) else 1) * (d.coeff : ℚ) * (10 : ℚ) ^ d.exp

/-- PyVal: the Python values that flow through the modelled keyword arguments
and field values. -/
inductive PyVal where
  | none
  | bool (b : Bool)
  | int (n : Int)
  | str (s : String)
deriving DecidableEq, Repr

/-- truthy: Python truth value (`bool(x)`) of the modelled values. -/
def truthy : PyVal → Bool
  | .none => false
  | .bool b => b
  | .int n => decide (n ≠ 0)
  | .str s => decide (s ≠ "")

/-- truthyOpt: `bool(dict.get(key))` - a missing key is `None`, hence falsy. -/
def truthyOpt : Option PyVal → Bool
  | some v => truthy v
  | Option.none => false

/-- Kwargs: a Python keyword-argument dict, as an association list. -/
abbrev Kwargs := List (String × PyVal)

/-- getKey: dict access; the first binding wins (dicts built by the modelled
code never hold duplicate keys). -/
def getKey {α : Type} : List (String × α) → String → Option α
  | [], _ => Option.none
  | kv :: rest, key => if kv.1 = key then some kv.2 else getKey rest key

/-- setdefault: `dict.setdefault(key, v)` - add the binding only when the key
is absent. -/
def setdefault {α : Type} (l : List (String × α)) (key : String) (v : α) :
    List (String × α) :=
  if (getKey l key).isSome then l else l ++ [(key, v)]

/-- setKey: dict assignment `d[key] = v` - overwrite the binding when the key
is present, append it otherwise. -/
def setKey {α : Type} (l : List (String × α)) (key : String) (v : α) :
    List (String × α) :=
  if (getKey l key).isSome then l.map (fun kv => if kv.1 = key then (key, v) else kv)
  else l ++ [(key, v)]

/-- popKey: `dict.pop(key, None)` - remove the binding for the key. -/
def popKey {α : Type} (l : List (String × α)) (key : String) : List (String × α) :=
  l.filter (fun kv => kv.1 ≠ key)

/-- Field: the attributes of a constructed `InternalIdentifierField` that the
verified methods consult. -/
structure Field where
  null : Bool
  unique : Bool
  blank : Bool
deriving DecidableEq, Repr

/-- uniqueErrorMessage: the message of the configuration `ValueError`. -/
def uniqueErrorMessage : String :=
  "Error! You must explicitly set the `unique` flag for `InternalIdentifierField`s."

/-- InternalIdentifierField.init: `InternalIdentifierField.__init__`.  Raises
the configuration `ValueError` when `unique` is absent; otherwise fills the
defaults in source order (`max_length`, `blank`, `null` - which defaults to
`bool(kwargs.get("blank"))` -, `verbose_name`, `help_text`, `editable`) and
hands the kwargs to the `CharField` base, whose relevant effect is storing the
truthiness of `null`, `unique` and `blank` on the field. -/
def InternalIdentifierField.init (kwargs : Kwargs) : Except String Field :=
  if getKey kwargs "unique" = Option.none then .error uniqueErrorMessage
  else
    let kw := setdefault kwargs "max_length" (.int 64)
    let kw := setdefault kw "blank" (.bool true)
    let kw := setdefault kw "null" (.bool (truthyOpt (getKey kw "blank")))
    let kw := setdefault kw "verbose_name" (.str "internal identifier")
    let kw := setdefault kw "help_text"
      (.str "Do not change this value if you are not sure what you are doing.")
    let kw := setdefault kw "editable" (.bool false)
    .ok { null := truthyOpt (getKey kw "null"),
          unique := truthyOpt (getKey kw "unique"),
          blank := truthyOpt (getKey kw "blank") }

/-- charFieldGetPrepValue: modelled from the framework contract of
`CharField.get_prep_value`: `None` and strings pass through, any other value
is converted with `str()`. -/
def charFieldGetPrepValue : PyVal → PyVal
  | .none => .none
  | .str s => .str s
  | .bool b => .str (if b then "True" else "False")
  | .int n => .str (toString n)

/-- InternalIdentifierField.get_prep_value: the base preparation, then - only
when the field is nullable - `prepared_value or None`, replacing falsy values
(such as the empty string) by `None`. -/
def InternalIdentifierField.get_prep_value (f : Field) (value : PyVal) : PyVal :=
  if f.null then
    (if truthy (charFieldGetPrepValue value) then charFieldGetPrepValue value else .none)
  else charFieldGetPrepValue value

/-- InternalIdentifierField.deconstruct: the kwargs rewriting applied on top of
whatever kwargs the framework's base `deconstruct` produced: force `null`,
`unique` and `blank` to the field's settings and drop `verbose_name` and
`help_text`. -/
def InternalIdentifierField.deconstruct (f : Field) (baseKwargs : Kwargs) : Kwargs :=
  popKey
    (popKey
      (setKey (setKey (setKey baseKwargs "null" (.bool f.null)) "unique" (.bool f.unique))
        "blank" (.bool f.blank))
      "verbose_name")
    "help_text"

/-- isLower: the character class `[a-z]`. -/
def isLower (ch : Char) : Bool := 'a' ≤ ch && ch ≤ 'z'

/-- isLowerOrUnderscore: the character class `[a-z_]`. -/
def isLowerOrUnderscore (ch : Char) : Bool := isLower ch || ch = '_'

/-- hasIdentPair l: some position of `l` holds a character of `[a-z]`
immediately followed by one of `[a-z_]` - exactly when `re.search` finds a
match of the regex `[a-z][a-z_]+` somewhere in the string. -/
def hasIdentPair : List Char → Bool
  | a :: b :: rest => (isLower a && isLowerOrUnderscore b) || hasIdentPair (b :: rest)
  | _ => false

/-- IdentifierValidator: modelled from the framework contract:
`RegexValidator("[a-z][a-z_]+")` accepts a string exactly when `re.search`
finds a match of the (unanchored) regex anywhere in it. -/
def IdentifierValidator (s : String) : Bool := hasIdentPair s.data

/-- identifierSpecAccepts: the spec's reading of the validator, for
comparison: the string consists of a lowercase letter followed by lowercase
letters/underscores (an anchored match of the whole string). -/
def identifierSpecAccepts (s : String) : Bool :=
  match s.data with
  | [] => false
  | a :: rest => isLower a && !rest.isEmpty && rest.all isLowerOrUnderscore

/-- Widget: a form widget: whether it is a `NumberInput`, and its attribute
dict. -/
structure Widget where
  isNumberInput : Bool
  attrs : List (String × String)
deriving DecidableEq, Repr

/-- MAX_DECIMAL_PLACES_FOR_STEP: threshold above which the step hint becomes
the literal `any`. -/
def MAX_DECIMAL_PLACES_FOR_STEP : Nat := 5

/-- FormattedDecimalFormField.widget_attrs: the effect of the override on the
widget's attribute dict.  When the widget is a `NumberInput` without a `step`
attribute, the step is `format(Decimal('1') / 10 ** decimal_places, 'f')` -
the division is exact, giving coefficient 1 and exponent `-decimal_places` -
for at most `MAX_DECIMAL_PLACES_FOR_STEP` decimal places, and the literal
`any` beyond.  The base class `widget_attrs` does not touch `widget.attrs`
(its own step branch is disabled once the key is present). -/
def FormattedDecimalFormField.widget_attrs (decimal_places : Nat) (w : Widget) : Widget :=
  if w.isNumberInput && (getKey w.attrs "step").isNone then
    let step : String :=
      if decimal_places ≤ MAX_DECIMAL_PLACES_FOR_STEP then
        formatFixed ⟨false, 1, -(decimal_places : Int)⟩
      else "any"
    { w with attrs := setdefault w.attrs "step" step }
  else w

/-- MONEY_FIELD_DECIMAL_PLACES: module constant. -/
def MONEY_FIELD_DECIMAL_PLACES : Int := 9

/-- FORMATTED_DECIMAL_FIELD_DECIMAL_PLACES: module constant. -/
def FORMATTED_DECIMAL_FIELD_DECIMAL_PLACES : Int := 9

/-- FORMATTED_DECIMAL_FIELD_MAX_DIGITS: module constant. -/
def FORMATTED_DECIMAL_FIELD_MAX_DIGITS : Int := 36

/-- MoneyValueField.initKwargs: the kwargs `MoneyValueField.__init__` passes to
the `FormattedDecimalField` base. -/
def MoneyValueField.initKwargs (kwargs : Kwargs) : Kwargs :=
  setdefault (setdefault kwargs "decimal_places" (.int MONEY_FIELD_DECIMAL_PLACES))
    "max_digits" (.int FORMATTED_DECIMAL_FIELD_MAX_DIGITS)

/-- QuantityField.initKwargs: the kwargs `QuantityField.__init__` passes to
the `FormattedDecimalField` base. -/
def QuantityField.initKwargs (kwargs : Kwargs) : Kwargs :=
  setdefault
    (setdefault (setdefault kwargs "decimal_places" (.int FORMATTED_DECIMAL_FIELD_DECIMAL_PLACES))
      "max_digits" (.int FORMATTED_DECIMAL_FIELD_MAX_DIGITS))
    "default" (.int 0)

/-- StoredValue: the raw attribute value `value_from_object` reads from the
object; numbers (`numbers.Number`) are modelled as ints and decimals. -/
inductive StoredValue where
  | none
  | str (s : String)
  | int (n : Int)
  | dec (d : Decimal)
deriving DecidableEq, Repr

/-- StoredValue.isNumber: `isinstance(value, numbers.Number)`. -/
def StoredValue.isNumber : StoredValue → Bool
  | .int _ => true
  | .dec _ => true
  | _ => false

/-- intToDecimal: `Decimal(str(n))` for an int `n`. -/
def intToDecimal (n : Int) : Decimal := ⟨decide (n < 0), n.natAbs, 0⟩

/-- FormattedDecimalField.value_from_object: formats the stored value when it
is a number (`Decimal(str(value))` reproduces a decimal value exactly), and
otherwise falls off the end of the method, returning `None`. -/
def FormattedDecimalField.value_from_object : StoredValue → Option (Except DecimalError String)
  | .int n => some (format_decimal (intToDecimal n))
  | .dec d => some (format_decimal d)
  | _ => Option.none

/-! Digit-count lemmas: the fuel-based digit extraction agrees with
`Nat.digits`, and `numDigits` is characterized by powers of 10. -/

theorem digitsAux_eq (fuel : Nat) : ∀ c : Nat, c < 10 ^ fuel → digitsAux fuel c = Nat.digits 10 c := by
  induction fuel with
  | zero =>
      intro c hc
      have hc0 : c = 0 := by simpa using hc
      subst hc0
      simp [digitsAux]
  | succ fuel ih =>
      intro c hc
      by_cases h : c = 0
      · subst h; simp [digitsAux]
      · rw [Nat.digits_def' (b := 10) (by norm_num) (Nat.pos_of_ne_zero h)]
        simp only [digitsAux, if_neg h]
        rw [ih (c / 10) ((Nat.div_lt_iff_lt_mul (by norm_num)).mpr (by rw [← pow_succ]; exact hc))]

theorem natDigits_eq (c : Nat) : natDigits c = Nat.digits 10 c :=
  digitsAux_eq c c (Nat.lt_pow_self (by norm_num) c)

theorem numDigits_zero : numDigits 0 = 1 := rfl

theorem numDigits_of_ne_zero {c : Nat} (hc : c ≠ 0) :
    numDigits c = (Nat.digits 10 c).length := by
  simp [numDigits, coeffDigits, hc, natDigits_eq]

theorem numDigits_le_iff {c j : Nat} (hc : c ≠ 0) : numDigits c ≤ j ↔ c < 10 ^ j := by
  rw [numDigits_of_ne_zero hc, Nat.digits_len 10 c (by norm_num) hc,
    Nat.lt_pow_iff_log_lt (by norm_num) hc]
  omega

theorem lt_pow_numDigits (c : Nat) : c < 10 ^ numDigits c := by
  by_cases hc : c = 0
  · subst hc; norm_num
  · exact (numDigits_le_iff hc).mp le_rfl

theorem numDigits_mul_ten {c : Nat} (hc : c ≠ 0) : numDigits (c * 10) = numDigits c + 1 := by
  rw [numDigits_of_ne_zero (Nat.mul_ne_zero hc (by norm_num)), numDigits_of_ne_zero hc,
    Nat.digits_def' (b := 10) (by norm_num) (Nat.pos_of_ne_zero (Nat.mul_ne_zero hc (by norm_num))),
    show c * 10 / 10 = c by omega]
  simp

/-! Lemmas about the trailing-zero stripping loop. -/

theorem stripAux_zero (fuel : Nat) (e : Int) : stripAux fuel 0 e = (0, e) := by
  cases fuel <;> simp [stripAux]

theorem stripAux_congr : ∀ (f₁ : Nat) {f₂ c : Nat} (e : Int), c < 10 ^ f₁ → c < 10 ^ f₂ →
    stripAux f₁ c e = stripAux f₂ c e := by
  intro f₁
  induction f₁ with
  | zero =>
      intro f₂ c e h1 _
      have hc0 : c = 0 := by simpa using h1
      subst hc0
      rw [stripAux_zero, stripAux_zero]
  | succ f ih =>
      intro f₂ c e h1 h2
      by_cases hc : c = 0
      · subst hc; rw [stripAux_zero, stripAux_zero]
      · cases f₂ with
        | zero =>
            exact absurd (by simpa using h2) hc
        | succ f₂' =>
            simp only [stripAux]
            by_cases hcond : c % 10 = 0 ∧ c ≠ 0
            · rw [if_pos hcond, if_pos hcond]
              exact ih (e + 1)
                ((Nat.div_lt_iff_lt_mul (by norm_num)).mpr (by rw [← pow_succ]; exact h1))
                ((Nat.div_lt_iff_lt_mul (by norm_num)).mpr (by rw [← pow_succ]; exact h2))
            · rw [if_neg hcond, if_neg hcond]

theorem stripZeros_step {c : Nat} (e : Int) (h0 : c % 10 = 0) (hc : c ≠ 0) :
    stripZeros c e = stripZeros (c / 10) (e + 1) := by
  obtain ⟨m, rfl⟩ : ∃ m, c = m + 1 := ⟨c - 1, by omega⟩
  unfold stripZeros
  simp only [stripAux, if_pos (And.intro h0 hc)]
  exact stripAux_congr m (e + 1)
    ((Nat.div_lt_iff_lt_mul (by norm_num)).mpr (by rw [← pow_succ]; exact Nat.lt_pow_self (by norm_num) (m + 1)))
    (Nat.lt_pow_self (by norm_num) ((m + 1) / 10))

theorem stripZeros_of_not {c : Nat} (e : Int) (h : ¬(c % 10 = 0 ∧ c ≠ 0)) :
    stripZeros c e = (c, e) := by
  unfold stripZeros
  cases c with
  | zero => exact stripAux_zero _ e
  | succ m => simp only [stripAux, if_neg h]

theorem stripZeros_mul_ten {c : Nat} (hc : c ≠ 0) (e : Int) :
    stripZeros (c * 10) e = stripZeros c (e + 1) := by
  rw [stripZeros_step e (Nat.mul_mod_left c 10) (Nat.mul_ne_zero hc (by norm_num)),
    show c * 10 / 10 = c by omega]

theorem stripZeros_pow_ten (j : Nat) (e : Int) : stripZeros (10 ^ j) e = (1, e + j) := by
  induction j generalizing e with
  | zero =>
      rw [pow_zero, stripZeros_of_not e (by norm_num)]
      simp
  | succ j ih =>
      rw [pow_succ, stripZeros_mul_ten (pow_ne_zero j (by norm_num)), ih]
      congr 1
      push_cast
      ring

theorem stripAux_fst_le (fuel : Nat) : ∀ {c : Nat} (e : Int), (stripAux fuel c e).1 ≤ c := by
  induction fuel with
  | zero => intro c e; simp [stripAux]
  | succ f ih =>
      intro c e
      simp only [stripAux]
      split
      · exact le_trans (ih (e + 1)) (Nat.div_le_self c 10)
      · exact le_rfl

theorem stripZeros_fst_le (c : Nat) (e : Int) : (stripZeros c e).1 ≤ c :=
  stripAux_fst_le c e

/-! Lemmas about half-even rounding. -/

theorem roundHalfEvenDiv_zero (c : Nat) : roundHalfEvenDiv c 0 = c := by
  simp [roundHalfEvenDiv, Nat.mod_one]

theorem roundHalfEvenDiv_shift (c k t : Nat) :
    roundHalfEvenDiv (c * 10 ^ t) (k + t) = roundHalfEvenDiv c k := by
  have hp : (0 : Nat) < 10 ^ t := by positivity
  unfold roundHalfEvenDiv
  rw [pow_add, Nat.mul_div_mul_right c (10 ^ k) hp, Nat.mul_mod_mul_right (10 ^ t) c (10 ^ k),
    show 2 * (c % 10 ^ k * 10 ^ t) = 2 * (c % 10 ^ k) * 10 ^ t by ring]
  simp only [gt_iff_lt, Nat.mul_lt_mul_right hp, Nat.mul_right_cancel_iff hp]

theorem roundHalfEvenDiv_le (c k : Nat) : roundHalfEvenDiv c k ≤ c / 10 ^ k + 1 := by
  unfold roundHalfEvenDiv
  split_ifs <;> omega

/-! The reduce operation: digit bound and shift invariance. -/

theorem Emin_eq : Emin = -999999 := rfl

theorem Etiny_eq : Etiny = -1000026 := rfl

theorem Etop_eq : Etop = 999972 := rfl

theorem prec_cast_eq : ((prec : Nat) : Int) = 28 := rfl

theorem contextFix_fst_lt {c : Nat} (hc : c ≠ 0) {e : Int} {p : Nat × Int}
    (h : contextFix c e = some p) : p.1 < 10 ^ prec := by
  have hcp : c < 10 ^ numDigits c := lt_pow_numDigits c
  unfold contextFix at h
  set E := expMin c e with hE
  have hEcases : (e + (numDigits c : Int) - 1 < Emin ∧ E = Etiny) ∨
      (¬(e + (numDigits c : Int) - 1 < Emin) ∧ E = e + numDigits c - prec) := by
    rw [hE]
    unfold expMin
    split_ifs with hs
    · exact Or.inl ⟨hs, rfl⟩
    · exact Or.inr ⟨hs, rfl⟩
  by_cases h1 : e + (numDigits c : Int) - prec > Etop
  · rw [if_pos h1] at h
    exact absurd h (by simp)
  rw [if_neg h1] at h
  by_cases h2 : e < E
  · have hnle : numDigits c ≤ (E - e).toNat + prec := by
      rcases hEcases with ⟨hs, hEt⟩ | ⟨hs, hEt⟩
      · have h5 := Emin_eq
        have h6 := Etiny_eq
        have h7 := prec_cast_eq
        omega
      · omega
    have hq : c / 10 ^ (E - e).toNat < 10 ^ prec := by
      rw [Nat.div_lt_iff_lt_mul (by positivity), ← pow_add]
      exact lt_of_lt_of_le hcp (Nat.pow_le_pow_right (by norm_num) (by omega))
    have hr_le : roundHalfEvenDiv c (E - e).toNat ≤ 10 ^ prec :=
      le_trans (roundHalfEvenDiv_le c _) (by omega)
    rw [if_pos h2] at h
    by_cases h3 : numDigits (roundHalfEvenDiv c (E - e).toNat) > prec
    · rw [if_pos h3] at h
      by_cases h4 : E + 1 > Etop
      · rw [if_pos h4] at h
        exact absurd h (by simp)
      · rw [if_neg h4] at h
        obtain rfl := Option.some.inj h
        rcases lt_or_eq_of_le hr_le with hlt | heqq
        · exact lt_of_le_of_lt (Nat.div_le_self _ 10) hlt
        · show roundHalfEvenDiv c (E - e).toNat / 10 < 10 ^ prec
          rw [heqq]
          exact Nat.div_lt_self (by positivity) (by norm_num)
    · rw [if_neg h3] at h
      obtain rfl := Option.some.inj h
      by_cases hz : roundHalfEvenDiv c (E - e).toNat = 0
      · show roundHalfEvenDiv c (E - e).toNat < 10 ^ prec
        rw [hz]
        positivity
      · exact (numDigits_le_iff hz).mp (by omega)
  · rw [if_neg h2] at h
    obtain rfl := Option.some.inj h
    show c < 10 ^ prec
    refine lt_of_lt_of_le hcp (Nat.pow_le_pow_right (by norm_num) ?_)
    rcases hEcases with ⟨hs, hEt⟩ | ⟨hs, hEt⟩
    · have h5 := Emin_eq
      have h6 := Etiny_eq
      have h7 := prec_cast_eq
      omega
    · omega

theorem numDigits_normalize_le {v nv : Decimal} (h : normalize v = some nv) :
    numDigits nv.coeff ≤ prec := by
  unfold normalize at h
  by_cases h0 : v.coeff = 0
  · rw [if_pos h0] at h
    obtain rfl := Option.some.inj h
    show numDigits 0 ≤ prec
    rw [numDigits_zero]
    norm_num [prec]
  · rw [if_neg h0] at h
    rcases hrv : reduceValue v.coeff v.exp with _ | p
    · rw [hrv] at h
      exact absurd h (by simp)
    · rw [hrv] at h
      obtain rfl := Option.some.inj h
      show numDigits p.1 ≤ prec
      unfold reduceValue at hrv
      rcases hcf : contextFix v.coeff v.exp with _ | q
      · rw [hcf] at hrv
        exact absurd hrv (by simp)
      · rw [hcf] at hrv
        have hrv' : (if q.1 = 0 then some ((0 : Nat), (0 : Int))
            else some (stripZeros q.1 q.2)) = some p := hrv
        have hlt : q.1 < 10 ^ prec := contextFix_fst_lt h0 hcf
        by_cases hz : q.1 = 0
        · rw [if_pos hz] at hrv'
          obtain rfl := Option.some.inj hrv'
          show numDigits 0 ≤ prec
          rw [numDigits_zero]
          norm_num [prec]
        · rw [if_neg hz] at hrv'
          obtain rfl := Option.some.inj hrv'
          by_cases hz2 : (stripZeros q.1 q.2).1 = 0
          · show numDigits (stripZeros q.1 q.2).1 ≤ prec
            rw [hz2, numDigits_zero]
            norm_num [prec]
          · exact (numDigits_le_iff hz2).mpr
              (lt_of_le_of_lt (stripZeros_fst_le _ _) hlt)

theorem expMin_mul_ten {c : Nat} (hc : c ≠ 0) (e : Int) :
    expMin (c * 10) e = expMin c (e + 1) := by
  unfold expMin
  rw [numDigits_mul_ten hc]
  by_cases h : e + 1 + (numDigits c : Int) - 1 < Emin
  · rw [if_pos (by push_cast; omega), if_pos h]
  · rw [if_neg (by push_cast; omega), if_neg h]
    push_cast
    ring

theorem reduceValue_mul_ten {c : Nat} (hc : c ≠ 0) (e : Int) :
    reduceValue (c * 10) e = reduceValue c (e + 1) := by
  have h10 : c * 10 ≠ 0 := Nat.mul_ne_zero hc (by norm_num)
  have hnd := numDigits_mul_ten hc
  have hEM := expMin_mul_ten hc e
  by_cases hov : e + 1 + (numDigits c : Int) - prec > Etop
  · have hAL : e + (numDigits (c * 10) : Int) - prec > Etop := by
      rw [hnd]; push_cast; omega
    have hL : contextFix (c * 10) e = Option.none := by
      unfold contextFix
      rw [if_pos hAL]
    have hR : contextFix c (e + 1) = Option.none := by
      unfold contextFix
      rw [if_pos hov]
    unfold reduceValue
    rw [hL, hR]
  · have hAL : ¬ (e + (numDigits (c * 10) : Int) - prec > Etop) := by
      rw [hnd]; push_cast; omega
    by_cases hr : e + 1 < expMin c (e + 1)
    · have hkey : contextFix (c * 10) e = contextFix c (e + 1) := by
        unfold contextFix
        rw [if_neg hAL, if_neg hov,
          if_pos (show e < expMin (c * 10) e by rw [hEM]; omega), if_pos hr, hEM,
          show (expMin c (e + 1) - e).toNat = (expMin c (e + 1) - (e + 1)).toNat + 1 by omega,
          show c * 10 = c * 10 ^ 1 by ring,
          roundHalfEvenDiv_shift c ((expMin c (e + 1) - (e + 1)).toNat) 1]
      unfold reduceValue
      rw [hkey]
    · by_cases heq : e + 1 = expMin c (e + 1)
      · have hnp : ¬ numDigits c > prec := by
          unfold expMin at heq
          split_ifs at heq with hsub
          · have h5 := Emin_eq
            have h6 := Etiny_eq
            have h7 := prec_cast_eq
            omega
          · omega
        have hL : contextFix (c * 10) e = some (c, e + 1) := by
          unfold contextFix
          rw [if_neg hAL,
            if_pos (show e < expMin (c * 10) e by rw [hEM]; omega),
            show (expMin (c * 10) e - e).toNat = 1 by rw [hEM]; omega,
            show roundHalfEvenDiv (c * 10) 1 = c by
              simpa [roundHalfEvenDiv_zero] using roundHalfEvenDiv_shift c 0 1,
            if_neg hnp, hEM, ← heq]
        have hR : contextFix c (e + 1) = some (c, e + 1) := by
          unfold contextFix
          rw [if_neg hov, if_neg hr]
        unfold reduceValue
        rw [hL, hR]
      · have hL : contextFix (c * 10) e = some (c * 10, e) := by
          unfold contextFix
          rw [if_neg hAL,
            if_neg (show ¬ e < expMin (c * 10) e by rw [hEM]; omega)]
        have hR : contextFix c (e + 1) = some (c, e + 1) := by
          unfold contextFix
          rw [if_neg hov, if_neg hr]
        unfold reduceValue
        rw [hL, hR]
        simp only [if_neg h10, if_neg hc]
        rw [stripZeros_mul_ten hc]

theorem reduceValue_mul_pow : ∀ (t : Nat) {c : Nat}, c ≠ 0 → ∀ e : Int,
    reduceValue (c * 10 ^ t) e = reduceValue c (e + t) := by
  intro t
  induction t with
  | zero => intro c _ e; simp
  | succ t ih =>
      intro c hc e
      rw [show c * 10 ^ (t + 1) = (c * 10) * 10 ^ t by ring,
        ih (Nat.mul_ne_zero hc (by norm_num)) e, reduceValue_mul_ten hc]
      congr 1
      push_cast
      ring

theorem normalize_mul_pow (s : Bool) (c t : Nat) (e : Int) :
    normalize ⟨s, c * 10 ^ t, e⟩ = normalize ⟨s, c, e + t⟩ := by
  by_cases hc : c = 0
  · subst hc; simp [normalize]
  · have h1 : c * 10 ^ t ≠ 0 := Nat.mul_ne_zero hc (by positivity)
    unfold normalize
    rw [if_neg h1, if_neg hc]
    simp only
    rw [reduceValue_mul_pow t hc e]

theorem normalize_eq_aux {s : Bool} {c₁ c₂ : Nat} {e₁ e₂ : Int} (hc₁ : c₁ ≠ 0)
    (hle : e₂ ≤ e₁) (h : (c₁ : ℚ) * (10 : ℚ) ^ e₁ = (c₂ : ℚ) * (10 : ℚ) ^ e₂) :
    normalize ⟨s, c₁, e₁⟩ = normalize ⟨s, c₂, e₂⟩ := by
  have het : e₁ = e₂ + ((e₁ - e₂).toNat : Int) := by omega
  have hc₂ : c₂ = c₁ * 10 ^ (e₁ - e₂).toNat := by
    have h10 : ((10 : ℚ) ^ e₂) ≠ 0 := zpow_ne_zero _ (by norm_num)
    have hq : (c₁ : ℚ) * (10 : ℚ) ^ (e₂ + ((e₁ - e₂).toNat : Int)) = (c₂ : ℚ) * (10 : ℚ) ^ e₂ := by
      rw [← het]; exact h
    rw [zpow_add₀ (by norm_num : (10 : ℚ) ≠ 0)] at hq
    have hq2 : ((c₁ * 10 ^ (e₁ - e₂).toNat : Nat) : ℚ) * (10 : ℚ) ^ e₂ = (c₂ : ℚ) * (10 : ℚ) ^ e₂ := by
      push_cast
      rw [← zpow_natCast (10 : ℚ) (e₁ - e₂).toNat]
      linear_combination hq
    exact_mod_cast (mul_right_cancel₀ h10 hq2).symm
  rw [hc₂, normalize_mul_pow, ← het]

theorem normalize_congr : ∀ {d₁ d₂ : Decimal}, ratValue d₁ = ratValue d₂ →
    d₁.sign = d₂.sign → normalize d₁ = normalize d₂ := by
  rintro ⟨s₁, c₁, e₁⟩ ⟨s₂, c₂, e₂⟩ hv hs
  simp only at hs
  subst hs
  have hcoeff : (c₁ : ℚ) * (10 : ℚ) ^ e₁ = (c₂ : ℚ) * (10 : ℚ) ^ e₂ := by
    have hsgn : ((if s₁ then (-1 : ℚ) else 1)) ≠ 0 := by split <;> norm_num
    unfold ratValue at hv
    simp only at hv
    rw [mul_assoc, mul_assoc] at hv
    exact mul_left_cancel₀ hsgn hv
  by_cases hc₁ : c₁ = 0
  · have hc₂ : c₂ = 0 := by
      subst hc₁
      simp only [Nat.cast_zero, zero_mul] at hcoeff
      rcases mul_eq_zero.mp hcoeff.symm with h | h
      · exact_mod_cast h
      · exact absurd h (zpow_ne_zero _ (by norm_num))
    subst hc₁; subst hc₂
    simp [normalize]
  · have hc₂ : c₂ ≠ 0 := by
      intro h0
      subst h0
      simp only [Nat.cast_zero, zero_mul] at hcoeff
      rcases mul_eq_zero.mp hcoeff with h | h
      · exact hc₁ (by exact_mod_cast h)
      · exact absurd h (zpow_ne_zero _ (by norm_num))
    rcases le_total e₂ e₁ with hle | hle
    · exact normalize_eq_aux hc₁ hle hcoeff
    · exact (normalize_eq_aux hc₂ hle hcoeff.symm).symm

/-! Fixed-point rendering produces only sign, point and digit characters. -/

theorem coeffDigits_lt (c : Nat) : ∀ dg ∈ coeffDigits c, dg < 10 := by
  intro dg hdg
  unfold coeffDigits at hdg
  split at hdg
  · simp at hdg; omega
  · rw [natDigits_eq] at hdg
    exact Nat.digits_lt_base (by norm_num) (List.mem_reverse.mp hdg)

theorem digitChar_toNat_lt {dg : Nat} (h : dg < 10) : (Nat.digitChar dg).toNat < 58 := by
  interval_cases dg <;> decide

theorem formatChars_toNat_lt (d : Decimal) : ∀ ch ∈ formatChars d, ch.toNat < 58 := by
  intro ch hch
  have hds : ∀ ch' ∈ (coeffDigits d.coeff).map Nat.digitChar, ch'.toNat < 58 := by
    intro ch' hch'
    obtain ⟨dg, hdg, rfl⟩ := List.mem_map.mp hch'
    exact digitChar_toNat_lt (coeffDigits_lt _ dg hdg)
  unfold formatChars at hch
  rcases List.mem_append.mp hch with h | h
  · split at h
    · rcases List.mem_singleton.mp h with rfl
      decide
    · simp at h
  · split at h
    · rcases List.mem_append.mp h with h | h
      · exact hds ch h
      · rw [List.eq_of_mem_replicate h]; decide
    · split at h
      · rcases List.mem_append.mp h with h | h
        · exact hds ch (List.mem_of_mem_take h)
        · rcases List.mem_cons.mp h with rfl | h
          · decide
          · exact hds ch (List.mem_of_mem_drop h)
      · rcases List.mem_cons.mp h with rfl | h
        · decide
        · rcases List.mem_cons.mp h with rfl | h
          · decide
          · rcases List.mem_append.mp h with h | h
            · rw [List.eq_of_mem_replicate h]; decide
            · exact hds ch h

theorem formatFixed_no_exp_marker (d : Decimal) :
    'E' ∉ (formatFixed d).data ∧ 'e' ∉ (formatFixed d).data := by
  constructor <;> intro h <;>
    exact absurd (formatChars_toNat_lt d _ h) (by decide)

theorem format_decimal_of_none {v : Decimal} (hn : normalize v = Option.none) :
    format_decimal v = Except.error DecimalError.overflow := by
  unfold format_decimal
  rw [hn]

theorem format_decimal_of_some {v nv : Decimal} (hn : normalize v = some nv) :
    format_decimal v =
      (if nv.exp > 100 then Except.error DecimalError.exponentTooLarge
       else if nv.exp < -100 then Except.error DecimalError.exponentTooSmall
       else if numDigits nv.coeff > 100 then Except.error DecimalError.tooManyDigits
       else Except.ok (formatFixed nv)) := by
  unfold format_decimal
  rw [hn]

/-- C1: for every Decimal that normalizes successfully to a value whose
exponent lies within the default limit 100 on both sides and whose digit
count is at most the default 100 max digits, `format_decimal` succeeds and
the returned string is a plain fixed-point decimal containing no exponent
marker (neither `E` nor `e`), i.e. never scientific notation. -/
theorem format_decimal_in_range_no_scientific (v nv : Decimal)
    (hn : normalize v = some nv)
    (h₁ : nv.exp ≤ 100) (h₂ : -100 ≤ nv.exp)
    (h₃ : numDigits nv.coeff ≤ 100) :
    ∃ s : String, format_decimal v = Except.ok s ∧ 'E' ∉ s.data ∧ 'e' ∉ s.data := by
  refine ⟨formatFixed nv, ?_, (formatFixed_no_exp_marker _).1,
    (formatFixed_no_exp_marker _).2⟩
  rw [format_decimal_of_some hn, if_neg (by omega), if_neg (by omega), if_neg (by omega)]

/-- Witness for C1 at the concrete value 123.45 = (sign 0, coefficient 12345,
exponent -2). -/
theorem format_decimal_in_range_no_scientific_witness :
    normalize ⟨false, 12345, -2⟩ = some ⟨false, 12345, -2⟩ ∧
    (⟨false, 12345, -2⟩ : Decimal).exp ≤ 100 ∧ -100 ≤ (⟨false, 12345, -2⟩ : Decimal).exp ∧
    numDigits (⟨false, 12345, -2⟩ : Decimal).coeff ≤ 100 ∧
    ∃ s : String, format_decimal ⟨false, 12345, -2⟩ = Except.ok s ∧ 'E' ∉ s.data ∧ 'e' ∉ s.data :=
  ⟨by decide, by decide, by decide, by decide,
    format_decimal_in_range_no_scientific ⟨false, 12345, -2⟩ ⟨false, 12345, -2⟩
      (by decide) (by decide) (by decide) (by decide)⟩

/-- C2 counterexample: at `Decimal('1E+2000000')` - adjusted exponent above
the default context's `Emax` of 999999 - `format_decimal` surfaces the
decimal library's `decimal.Overflow`, raised inside `value.normalize()`
before any of the module's checks, which is none of the three `ValueError`s:
they are not the only errors. -/
theorem format_decimal_overflow_escapes :
    format_decimal ⟨false, 1, 2000000⟩ = Except.error DecimalError.overflow
    ∧ DecimalError.overflow ≠ DecimalError.exponentTooLarge
    ∧ DecimalError.overflow ≠ DecimalError.exponentTooSmall
    ∧ DecimalError.overflow ≠ DecimalError.tooManyDigits :=
  ⟨rfl, by decide, by decide, by decide⟩

/-- C2 amended: when normalization raises the decimal library's
`decimal.Overflow` (the value's rounded adjusted exponent exceeds the default
context's `Emax` of 999999), that exception - not a module `ValueError` -
escapes `format_decimal`; for every value that normalizes successfully,
`format_decimal` raises a `ValueError` exactly when the normalized value is
out of range, and the three `ValueError`s are characterized:
exponent-too-large exactly when the exponent exceeds 100, exponent-too-small
exactly when it is below -100, and too-many-digits exactly when the digit
count exceeds 100 (under the default context precision the normalized digit
count never exceeds 28, so this error cannot actually occur); together with
the missing-uniqueness configuration error these are all the errors. -/
theorem format_decimal_error_characterization (v : Decimal) :
    (normalize v = Option.none → format_decimal v = Except.error DecimalError.overflow)
    ∧ ∀ nv : Decimal, normalize v = some nv →
      (((∃ err, format_decimal v = Except.error err) ↔
          (nv.exp > 100 ∨ nv.exp < -100 ∨ numDigits nv.coeff > 100))
        ∧ (format_decimal v = Except.error DecimalError.exponentTooLarge ↔ nv.exp > 100)
        ∧ (format_decimal v = Except.error DecimalError.exponentTooSmall ↔ nv.exp < -100)
        ∧ (format_decimal v = Except.error DecimalError.tooManyDigits ↔
            numDigits nv.coeff > 100)) := by
  constructor
  · exact format_decimal_of_none
  · intro nv hn
    have h28 : numDigits nv.coeff ≤ 28 := by
      have := numDigits_normalize_le hn
      simpa [prec] using this
    rw [format_decimal_of_some hn]
    split_ifs with h1 h2 h3
    · refine ⟨⟨fun _ => Or.inl h1, fun _ => ⟨_, rfl⟩⟩, ⟨fun _ => h1, fun _ => rfl⟩, ?_, ?_⟩
      · exact ⟨fun he => absurd he (by simp), fun hc => absurd hc (by omega)⟩
      · exact ⟨fun he => absurd he (by simp), fun hc => absurd hc (by omega)⟩
    · refine ⟨⟨fun _ => Or.inr (Or.inl h2), fun _ => ⟨_, rfl⟩⟩, ?_,
        ⟨fun _ => h2, fun _ => rfl⟩, ?_⟩
      · exact ⟨fun he => absurd he (by simp), fun hc => absurd hc h1⟩
      · exact ⟨fun he => absurd he (by simp), fun hc => absurd hc (by omega)⟩
    · exact absurd h3 (by omega)
    · refine ⟨⟨fun ⟨err, he⟩ => absurd he (by simp), fun hc => ?_⟩, ?_, ?_, ?_⟩
      · rcases hc with hc | hc | hc
        · exact absurd hc h1
        · exact absurd hc h2
        · exact absurd hc h3
      · exact ⟨fun he => absurd he (by simp), fun hc => absurd hc h1⟩
      · exact ⟨fun he => absurd he (by simp), fun hc => absurd hc h2⟩
      · exact ⟨fun he => absurd he (by simp), fun hc => absurd hc h3⟩

/-- Witness for C2 amended: the overflow clause at `Decimal('1E+2000000')`
and the in-range characterization at `Decimal('5E+101')`, whose exponent
exceeds the limit. -/
theorem format_decimal_error_characterization_witness :
    normalize ⟨false, 1, 2000000⟩ = Option.none
    ∧ format_decimal ⟨false, 1, 2000000⟩ = Except.error DecimalError.overflow
    ∧ normalize ⟨false, 5, 101⟩ = some ⟨false, 5, 101⟩
    ∧ (((∃ err, format_decimal ⟨false, 5, 101⟩ = Except.error err) ↔
          ((⟨false, 5, 101⟩ : Decimal).exp > 100 ∨ (⟨false, 5, 101⟩ : Decimal).exp < -100 ∨
            numDigits (⟨false, 5, 101⟩ : Decimal).coeff > 100))
        ∧ (format_decimal ⟨false, 5, 101⟩ = Except.error DecimalError.exponentTooLarge ↔
            (⟨false, 5, 101⟩ : Decimal).exp > 100)
        ∧ (format_decimal ⟨false, 5, 101⟩ = Except.error DecimalError.exponentTooSmall ↔
            (⟨false, 5, 101⟩ : Decimal).exp < -100)
        ∧ (format_decimal ⟨false, 5, 101⟩ = Except.error DecimalError.tooManyDigits ↔
            numDigits (⟨false, 5, 101⟩ : Decimal).coeff > 100)) :=
  ⟨by decide,
    (format_decimal_error_characterization ⟨false, 1, 2000000⟩).1 (by decide),
    by decide,
    (format_decimal_error_characterization ⟨false, 5, 101⟩).2 ⟨false, 5, 101⟩ (by decide)⟩

/-- C9 counterexample: `Decimal('-0')` and `Decimal('0')` are two
representations of the same numeric value (zero), yet `format_decimal`
renders them differently (`-0` versus `0`), so the result does not depend
only on the numeric value. -/
theorem format_decimal_negative_zero :
    ratValue ⟨true, 0, 0⟩ = ratValue ⟨false, 0, 0⟩
    ∧ format_decimal ⟨true, 0, 0⟩ = Except.ok "-0"
    ∧ format_decimal ⟨false, 0, 0⟩ = Except.ok "0"
    ∧ format_decimal ⟨true, 0, 0⟩ ≠ format_decimal ⟨false, 0, 0⟩ := by
  refine ⟨by norm_num [ratValue], rfl, rfl, fun h => ?_⟩
  rw [show format_decimal ⟨true, 0, 0⟩ = Except.ok "-0" from rfl,
    show format_decimal ⟨false, 0, 0⟩ = Except.ok "0" from rfl] at h
  simp only [Except.ok.injEq] at h
  exact absurd h (by decide)

/-- C9 amended: `format_decimal` depends only on the numeric value of its
argument together with its sign flag (which only matters for zero, where
`-0` keeps its sign): any two representations of the same numeric value with
the same sign - in particular representations differing only in trailing
zeros - yield the same result string or the same error, because the value is
normalized before any check; hence trailing zeros never count toward the
max-digits limit. -/
theorem format_decimal_value_determined (d₁ d₂ : Decimal)
    (hv : ratValue d₁ = ratValue d₂) (hs : d₁.sign = d₂.sign) :
    format_decimal d₁ = format_decimal d₂ := by
  unfold format_decimal
  rw [normalize_congr hv hs]

/-- Witness for C9 amended: 120E+1 and 12E+2 both denote 1200. -/
theorem format_decimal_value_determined_witness :
    ratValue ⟨false, 120, 1⟩ = ratValue ⟨false, 12, 2⟩
    ∧ (⟨false, 120, 1⟩ : Decimal).sign = (⟨false, 12, 2⟩ : Decimal).sign
    ∧ format_decimal ⟨false, 120, 1⟩ = format_decimal ⟨false, 12, 2⟩ := by
  have hv : ratValue ⟨false, 120, 1⟩ = ratValue ⟨false, 12, 2⟩ := by
    norm_num [ratValue]
  exact ⟨hv, rfl, format_decimal_value_determined ⟨false, 120, 1⟩ ⟨false, 12, 2⟩ hv rfl⟩

/-! Dictionary-operation lemmas. -/

theorem getKey_append_right {α : Type} (l : List (String × α)) (key : String) (v : α)
    (h : getKey l key = Option.none) : getKey (l ++ [(key, v)]) key = some v := by
  induction l with
  | nil => simp [getKey]
  | cons kv rest ih =>
      by_cases hk : kv.1 = key
      · rw [getKey, if_pos hk] at h
        exact absurd h (by simp)
      · rw [List.cons_append, getKey, if_neg hk]
        exact ih (by rwa [getKey, if_neg hk] at h)

theorem getKey_append_single_ne {α : Type} (l : List (String × α)) {key key' : String}
    (v : α) (h : key' ≠ key) : getKey (l ++ [(key, v)]) key' = getKey l key' := by
  induction l with
  | nil => simp [getKey, Ne.symm h]
  | cons kv rest ih =>
      by_cases hk : kv.1 = key'
      · rw [List.cons_append, getKey, if_pos hk, getKey, if_pos hk]
      · rw [List.cons_append, getKey, if_neg hk, getKey, if_neg hk]
        exact ih

theorem getKey_setdefault_self {α : Type} (l : List (String × α)) (key : String) (v : α)
    (h : getKey l key = Option.none) : getKey (setdefault l key v) key = some v := by
  unfold setdefault
  rw [h]
  exact getKey_append_right l key v h

theorem getKey_setdefault_ne {α : Type} (l : List (String × α)) {key key' : String}
    (v : α) (h : key' ≠ key) : getKey (setdefault l key v) key' = getKey l key' := by
  unfold setdefault
  split
  · rfl
  · exact getKey_append_single_ne l v h

theorem getKey_map_set {α : Type} (l : List (String × α)) (key : String) (v : α)
    (h : (getKey l key).isSome) :
    getKey (l.map (fun kv => if kv.1 = key then (key, v) else kv)) key = some v := by
  induction l with
  | nil => simp [getKey] at h
  | cons kv rest ih =>
      by_cases hk : kv.1 = key
      · simp [getKey, hk]
      · have h' : (getKey rest key).isSome := by
          rwa [getKey, if_neg hk] at h
        simp only [List.map_cons, if_neg hk, getKey]
        exact ih h'

theorem getKey_map_set_ne {α : Type} (l : List (String × α)) {key key' : String} (v : α)
    (h : key' ≠ key) :
    getKey (l.map (fun kv => if kv.1 = key then (key, v) else kv)) key' = getKey l key' := by
  induction l with
  | nil => rfl
  | cons kv rest ih =>
      by_cases hk : kv.1 = key
      · simp only [List.map_cons, if_pos hk, getKey]
        rw [if_neg (Ne.symm h), if_neg (by rw [hk]; exact Ne.symm h)]
        exact ih
      · simp only [List.map_cons, if_neg hk, getKey]
        by_cases hk' : kv.1 = key'
        · rw [if_pos hk', if_pos hk']
        · rw [if_neg hk', if_neg hk']
          exact ih

theorem getKey_setKey_self {α : Type} (l : List (String × α)) (key : String) (v : α) :
    getKey (setKey l key v) key = some v := by
  unfold setKey
  by_cases h : (getKey l key).isSome
  · rw [if_pos h]
    exact getKey_map_set l key v h
  · rw [if_neg h]
    exact getKey_append_right l key v (Option.not_isSome_iff_eq_none.mp h)

theorem getKey_setKey_ne {α : Type} (l : List (String × α)) {key key' : String} (v : α)
    (h : key' ≠ key) : getKey (setKey l key v) key' = getKey l key' := by
  unfold setKey
  split
  · exact getKey_map_set_ne l v h
  · exact getKey_append_single_ne l v h

theorem getKey_popKey_self {α : Type} (l : List (String × α)) (key : String) :
    getKey (popKey l key) key = Option.none := by
  unfold popKey
  induction l with
  | nil => rfl
  | cons kv rest ih =>
      rw [List.filter_cons]
      by_cases hk : kv.1 = key
      · rw [if_neg (by simp [hk])]
        exact ih
      · rw [if_pos (by simp [hk]), getKey, if_neg hk]
        exact ih

theorem getKey_popKey_ne {α : Type} (l : List (String × α)) {key key' : String}
    (h : key' ≠ key) : getKey (popKey l key) key' = getKey l key' := by
  unfold popKey
  induction l with
  | nil => rfl
  | cons kv rest ih =>
      rw [List.filter_cons]
      by_cases hk : kv.1 = key
      · rw [if_neg (by simp [hk])]
        rw [ih, getKey, if_neg (show kv.1 ≠ key' by rw [hk]; exact Ne.symm h)]
      · rw [if_pos (by simp [hk])]
        simp only [getKey]
        by_cases hk' : kv.1 = key'
        · rw [if_pos hk', if_pos hk']
        · rw [if_neg hk', if_neg hk']
          exact ih

/-- C3: constructing an `InternalIdentifierField` from any keyword arguments
that do not contain the key `unique` raises the configuration `ValueError`,
regardless of the other keyword arguments supplied. -/
theorem init_without_unique_raises (kwargs : Kwargs)
    (h : getKey kwargs "unique" = Option.none) :
    InternalIdentifierField.init kwargs = Except.error uniqueErrorMessage := by
  unfold InternalIdentifierField.init
  rw [if_pos h]

/-- Witness for C3 at the kwargs `{blank: True}`. -/
theorem init_without_unique_raises_witness :
    getKey [("blank", PyVal.bool true)] "unique" = Option.none ∧
    InternalIdentifierField.init [("blank", PyVal.bool true)] = Except.error uniqueErrorMessage :=
  ⟨rfl, init_without_unique_raises [("blank", PyVal.bool true)] rfl⟩

/-- C4 counterexample: a field constructed with `blank=True` but an explicit
`null=False` permits blank values, yet `get_prep_value` keeps the empty
string instead of mapping it to `None`: the claim's hypothesis `permits
blank values` is not enough, the `null` flag is what the method consults. -/
theorem get_prep_value_blank_not_null :
    InternalIdentifierField.init
        [("unique", PyVal.bool true), ("blank", PyVal.bool true), ("null", PyVal.bool false)]
      = Except.ok ⟨false, true, true⟩
    ∧ InternalIdentifierField.get_prep_value ⟨false, true, true⟩ (PyVal.str "") = PyVal.str ""
    ∧ PyVal.str "" ≠ PyVal.none :=
  ⟨rfl, rfl, by decide⟩

theorem charFieldGetPrepValue_shape (v : PyVal) :
    charFieldGetPrepValue v = PyVal.none ∨ ∃ s, charFieldGetPrepValue v = PyVal.str s := by
  cases v with
  | none => exact Or.inl rfl
  | bool b => exact Or.inr ⟨_, rfl⟩
  | int n => exact Or.inr ⟨_, rfl⟩
  | str s => exact Or.inr ⟨_, rfl⟩

/-- C4 amended: for every `InternalIdentifierField` whose `null` flag is set -
which is the default whenever blank values are permitted and `null` is not
explicitly overridden - `get_prep_value` maps every empty value (the empty
string or `None`) to `None` rather than the empty string, and for every input
value it returns either a string or `None`. -/
theorem get_prep_value_nullable (f : Field) (v : PyVal) (hnull : f.null = true) :
    ((v = PyVal.str "" ∨ v = PyVal.none) →
        InternalIdentifierField.get_prep_value f v = PyVal.none)
    ∧ ((∃ s, InternalIdentifierField.get_prep_value f v = PyVal.str s)
        ∨ InternalIdentifierField.get_prep_value f v = PyVal.none) := by
  constructor
  · rintro (rfl | rfl) <;>
      simp [InternalIdentifierField.get_prep_value, charFieldGetPrepValue, truthy, hnull]
  · rcases charFieldGetPrepValue_shape v with hp | ⟨s, hp⟩
    · right
      simp [InternalIdentifierField.get_prep_value, hp, truthy]
    · by_cases hs : truthy (PyVal.str s) = true
      · left
        exact ⟨s, by simp [InternalIdentifierField.get_prep_value, hp, hs, hnull]⟩
      · right
        have hs' : truthy (PyVal.str s) = false := by simpa using hs
        simp [InternalIdentifierField.get_prep_value, hp, hnull, hs']

/-- Witness for C4 amended: the default nullable field on the empty string. -/
theorem get_prep_value_nullable_witness :
    (⟨true, true, true⟩ : Field).null = true ∧
    (((PyVal.str "" = PyVal.str "" ∨ PyVal.str "" = PyVal.none) →
        InternalIdentifierField.get_prep_value ⟨true, true, true⟩ (PyVal.str "") = PyVal.none)
      ∧ ((∃ s, InternalIdentifierField.get_prep_value ⟨true, true, true⟩ (PyVal.str "")
            = PyVal.str s)
          ∨ InternalIdentifierField.get_prep_value ⟨true, true, true⟩ (PyVal.str "")
            = PyVal.none)) :=
  ⟨rfl, get_prep_value_nullable ⟨true, true, true⟩ (PyVal.str "") rfl⟩

/-- C5 counterexample: the validator is built on `re.search` with an
unanchored pattern, so `"9ab"` - which does not consist of a lowercase letter
followed by lowercase letters/underscores - is nevertheless accepted, because
it contains the match `ab`. -/
theorem identifier_validator_unanchored :
    IdentifierValidator "9ab" = true ∧ identifierSpecAccepts "9ab" = false := by
  exact ⟨rfl, rfl⟩

theorem hasIdentPair_iff : ∀ l : List Char, hasIdentPair l = true ↔
    ∃ pre a b post, l = pre ++ a :: b :: post ∧ isLower a = true ∧ isLowerOrUnderscore b = true := by
  intro l
  induction l with
  | nil =>
      constructor
      · intro h; exact absurd h (by simp [hasIdentPair])
      · rintro ⟨pre, a, b, post, h, -, -⟩
        cases pre <;> simp at h
  | cons x tl ih =>
      cases tl with
      | nil =>
          constructor
          · intro h; exact absurd h (by simp [hasIdentPair])
          · rintro ⟨pre, a, b, post, h, -, -⟩
            have hlen := congrArg List.length h
            simp at hlen
            omega
      | cons y tl' =>
          rw [hasIdentPair, Bool.or_eq_true, Bool.and_eq_true]
          constructor
          · rintro (⟨hx, hy⟩ | h)
            · exact ⟨[], x, y, tl', rfl, hx, hy⟩
            · obtain ⟨pre, a, b, post, heq, ha, hb⟩ := ih.mp h
              exact ⟨x :: pre, a, b, post, by rw [List.cons_append, heq], ha, hb⟩
          · rintro ⟨pre, a, b, post, heq, ha, hb⟩
            cases pre with
            | nil =>
                simp only [List.nil_append, List.cons.injEq] at heq
                obtain ⟨rfl, rfl, rfl⟩ := heq
                exact Or.inl ⟨ha, hb⟩
            | cons p pre' =>
                simp only [List.cons_append, List.cons.injEq] at heq
                exact Or.inr (ih.mpr ⟨pre', a, b, post, heq.2, ha, hb⟩)

/-- C5 amended: the `IdentifierValidator` accepts a string if and only if the
string contains, anywhere, a lowercase letter immediately followed by a
lowercase letter or underscore - the substring-search semantics of the
unanchored regex `[a-z][a-z_]+` - rather than only strings that entirely
consist of such a pattern. -/
theorem identifier_validator_iff (s : String) :
    IdentifierValidator s = true ↔
      ∃ pre a b post, s.data = pre ++ a :: b :: post ∧ isLower a = true ∧
        isLowerOrUnderscore b = true :=
  hasIdentPair_iff s.data

/-- C6: on a `NumberInput` widget without a preexisting `step` attribute,
`widget_attrs` sets `step` to the fixed-point rendering of the decimal
fraction `1 / 10^decimal_places` (namely `1` for zero decimal places and
`0.0...01` otherwise) when `decimal_places ≤ 5`, and to the literal string
`any` when `decimal_places > 5`; no other step value is ever produced. -/
theorem widget_attrs_step (dp : Nat) (w : Widget)
    (hni : w.isNumberInput = true) (hstep : getKey w.attrs "step" = Option.none) :
    getKey (FormattedDecimalFormField.widget_attrs dp w).attrs "step" =
      some (if dp ≤ 5 then
              String.mk (if dp = 0 then ['1'] else '0' :: '.' :: (List.replicate (dp - 1) '0' ++ ['1']))
            else "any") := by
  unfold FormattedDecimalFormField.widget_attrs
  rw [if_pos (show (w.isNumberInput && (getKey w.attrs "step").isNone) = true by
    rw [hni, hstep]; rfl)]
  have hfmt : (if dp ≤ MAX_DECIMAL_PLACES_FOR_STEP then
      formatFixed ⟨false, 1, -(dp : Int)⟩ else "any") =
      (if dp ≤ 5 then
        String.mk (if dp = 0 then ['1'] else '0' :: '.' :: (List.replicate (dp - 1) '0' ++ ['1']))
      else "any") := by
    unfold MAX_DECIMAL_PLACES_FOR_STEP
    by_cases hdp : dp ≤ 5
    · rw [if_pos hdp, if_pos hdp]
      interval_cases dp <;> rfl
    · rw [if_neg hdp, if_neg hdp]
  show getKey (setdefault w.attrs "step"
      (if dp ≤ MAX_DECIMAL_PLACES_FOR_STEP then formatFixed ⟨false, 1, -(dp : Int)⟩ else "any"))
      "step" = _
  rw [hfmt]
  exact getKey_setdefault_self w.attrs "step" _ hstep

/-- Witness for C6 at two decimal places on a bare numeric widget. -/
theorem widget_attrs_step_witness :
    (⟨true, []⟩ : Widget).isNumberInput = true ∧
    getKey (⟨true, []⟩ : Widget).attrs "step" = Option.none ∧
    getKey (FormattedDecimalFormField.widget_attrs 2 ⟨true, []⟩).attrs "step" =
      some (if 2 ≤ 5 then
              String.mk (if 2 = 0 then ['1'] else '0' :: '.' :: (List.replicate (2 - 1) '0' ++ ['1']))
            else "any") :=
  ⟨rfl, rfl, widget_attrs_step 2 ⟨true, []⟩ rfl rfl⟩

/-- C7: when the caller does not override them, `MoneyValueField` passes 9
decimal places and 36 max digits to its base, and `QuantityField` passes 9
decimal places, 36 max digits, and a default value of 0. -/
theorem money_quantity_defaults (kwargs : Kwargs)
    (hdp : getKey kwargs "decimal_places" = Option.none)
    (hmd : getKey kwargs "max_digits" = Option.none)
    (hdf : getKey kwargs "default" = Option.none) :
    getKey (MoneyValueField.initKwargs kwargs) "decimal_places" = some (PyVal.int 9)
    ∧ getKey (MoneyValueField.initKwargs kwargs) "max_digits" = some (PyVal.int 36)
    ∧ getKey (QuantityField.initKwargs kwargs) "decimal_places" = some (PyVal.int 9)
    ∧ getKey (QuantityField.initKwargs kwargs) "max_digits" = some (PyVal.int 36)
    ∧ getKey (QuantityField.initKwargs kwargs) "default" = some (PyVal.int 0) := by
  unfold MoneyValueField.initKwargs QuantityField.initKwargs
  unfold MONEY_FIELD_DECIMAL_PLACES FORMATTED_DECIMAL_FIELD_DECIMAL_PLACES
    FORMATTED_DECIMAL_FIELD_MAX_DIGITS
  refine ⟨?_, ?_, ?_, ?_, ?_⟩
  · rw [getKey_setdefault_ne _ _ (by decide)]
    exact getKey_setdefault_self _ _ _ hdp
  · exact getKey_setdefault_self _ _ _
      (by rw [getKey_setdefault_ne _ _ (by decide)]; exact hmd)
  · rw [getKey_setdefault_ne _ _ (by decide), getKey_setdefault_ne _ _ (by decide)]
    exact getKey_setdefault_self _ _ _ hdp
  · rw [getKey_setdefault_ne _ _ (by decide)]
    exact getKey_setdefault_self _ _ _
      (by rw [getKey_setdefault_ne _ _ (by decide)]; exact hmd)
  · exact getKey_setdefault_self _ _ _
      (by rw [getKey_setdefault_ne _ _ (by decide), getKey_setdefault_ne _ _ (by decide)]
          exact hdf)

/-- Witness for C7 at empty kwargs. -/
theorem money_quantity_defaults_witness :
    getKey ([] : Kwargs) "decimal_places" = Option.none ∧
    getKey ([] : Kwargs) "max_digits" = Option.none ∧
    getKey ([] : Kwargs) "default" = Option.none ∧
    (getKey (MoneyValueField.initKwargs []) "decimal_places" = some (PyVal.int 9)
    ∧ getKey (MoneyValueField.initKwargs []) "max_digits" = some (PyVal.int 36)
    ∧ getKey (QuantityField.initKwargs []) "decimal_places" = some (PyVal.int 9)
    ∧ getKey (QuantityField.initKwargs []) "max_digits" = some (PyVal.int 36)
    ∧ getKey (QuantityField.initKwargs []) "default" = some (PyVal.int 0)) :=
  ⟨rfl, rfl, rfl, money_quantity_defaults [] rfl rfl rfl⟩

/-- C8: `value_from_object` returns `None` exactly when the stored value is
not a number (in particular for `None` and for strings); only numeric values
are converted to `Decimal` and formatted. -/
theorem value_from_object_none_iff (v : StoredValue) :
    FormattedDecimalField.value_from_object v = Option.none ↔ v.isNumber = false := by
  cases v <;> simp [FormattedDecimalField.value_from_object, StoredValue.isNumber]

/-- C10: for every successfully constructed `InternalIdentifierField`, and
whatever kwargs the framework's base `deconstruct` produced, the rewritten
kwargs always bind `null`, `unique` and `blank` to the field's current
settings and never contain `verbose_name` or `help_text`. -/
theorem deconstruct_forced_kwargs (kwargs : Kwargs) (f : Field) (baseKwargs : Kwargs)
    (hinit : InternalIdentifierField.init kwargs = Except.ok f) :
    getKey (InternalIdentifierField.deconstruct f baseKwargs) "null" = some (PyVal.bool f.null)
    ∧ getKey (InternalIdentifierField.deconstruct f baseKwargs) "unique" = some (PyVal.bool f.unique)
    ∧ getKey (InternalIdentifierField.deconstruct f baseKwargs) "blank" = some (PyVal.bool f.blank)
    ∧ getKey (InternalIdentifierField.deconstruct f baseKwargs) "verbose_name" = Option.none
    ∧ getKey (InternalIdentifierField.deconstruct f baseKwargs) "help_text" = Option.none := by
  unfold InternalIdentifierField.deconstruct
  refine ⟨?_, ?_, ?_, ?_, ?_⟩
  · rw [getKey_popKey_ne _ (by decide), getKey_popKey_ne _ (by decide),
      getKey_setKey_ne _ _ (by decide), getKey_setKey_ne _ _ (by decide)]
    exact getKey_setKey_self _ _ _
  · rw [getKey_popKey_ne _ (by decide), getKey_popKey_ne _ (by decide),
      getKey_setKey_ne _ _ (by decide)]
    exact getKey_setKey_self _ _ _
  · rw [getKey_popKey_ne _ (by decide)]
    rw [getKey_popKey_ne _ (by decide)]
    exact getKey_setKey_self _ _ _
  · rw [getKey_popKey_ne _ (by decide)]
    exact getKey_popKey_self _ _
  · exact getKey_popKey_self _ _

/-- Witness for C10: a field built with only `unique=True`, deconstructed
against an empty base kwargs dict. -/
theorem deconstruct_forced_kwargs_witness :
    InternalIdentifierField.init [("unique", PyVal.bool true)] = Except.ok ⟨true, true, true⟩
    ∧ (getKey (InternalIdentifierField.deconstruct ⟨true, true, true⟩ []) "null"
        = some (PyVal.bool (⟨true, true, true⟩ : Field).null)
      ∧ getKey (InternalIdentifierField.deconstruct ⟨true, true, true⟩ []) "unique"
        = some (PyVal.bool (⟨true, true, true⟩ : Field).unique)
      ∧ getKey (InternalIdentifierField.deconstruct ⟨true, true, true⟩ []) "blank"
        = some (PyVal.bool (⟨true, true, true⟩ : Field).blank)
      ∧ getKey (InternalIdentifierField.deconstruct ⟨true, true, true⟩ []) "verbose_name"
        = Option.none
      ∧ getKey (InternalIdentifierField.deconstruct ⟨true, true, true⟩ []) "help_text"
        = Option.none) :=
  ⟨rfl, deconstruct_forced_kwargs [("unique", PyVal.bool true)] ⟨true, true, true⟩ [] rfl⟩

end OscarFields
